import Mathlib

/-!
Verification development for the py-html-checker validation engine
(src/html_checker/validator.py and its collaborators).

The embedding translates `ValidatorInterface` from
src/html_checker/validator.py.  Components of the repository that the
orchestrator uses but whose source modules are not available
(html_checker.utils.reduce_unique, html_checker.reporter.ReportStore,
the html_checker.USER_AGENT constant) are modelled from the spec, as
marked in their doc comments; their behaviour is corroborated by the
repository test suite in src/tests/020_validator.py.
-/

namespace HtmlChecker

/-- Python values usable as option values in an Option Set: `None`, a
single string, or a list/tuple of strings (spec section 3, Option Set). -/
inductive PyVal where
  | vNone : PyVal
  | vStr (s : String) : PyVal
  | vList (xs : List String) : PyVal
  deriving DecidableEq, Repr

/-- Python truthiness of an option value: `None`, the empty string and
the empty list are falsy, everything else truthy. -/
def pyTruthy : PyVal → Bool
  | .vNone => false
  | .vStr s => s ≠ ""
  | .vList xs => !xs.isEmpty

/-- An ordered Python dict (OrderedDict) of options: an association list
from option name to value, in insertion order. -/
abbrev PyDict := List (String × PyVal)

/-- Membership test of a key in a dict, modelling Python `k in d`. -/
def dictHasKey (d : PyDict) (k : String) : Bool :=
  d.any (fun kv => kv.1 = k)

/-- Python dict assignment `d[k] = v`: update the value in place when the
key is present (keeping its position), append the pair otherwise. -/
def dictSet (d : PyDict) (k : String) (v : PyVal) : PyDict :=
  if dictHasKey d k then
    d.map (fun kv => if kv.1 = k then (k, v) else kv)
  else
    d ++ [(k, v)]

/-- The loop body of compile_options for one (name, value) pair:
`if name:` append the name; `if value:` extend with a list value or
append any other value (validator.py lines 46-54). -/
def compile_options_step (opts : List String) (nv : String × PyVal) :
    List String :=
  let opts1 := if nv.1 ≠ "" then opts ++ [nv.1] else opts
  if pyTruthy nv.2 then
    match nv.2 with
    | .vList xs => opts1 ++ xs
    | .vStr s => opts1 ++ [s]
    | .vNone => opts1
  else opts1

/-- ValidatorInterface.compile_options (validator.py lines 32-56): flatten
an option dict to an argument list, visiting the pairs in insertion
order. -/
def compile_options (options : PyDict) : List String :=
  options.foldl compile_options_step []

/-- The class-level configuration of ValidatorInterface: INTERPRETER and
VALIDATOR attributes (validator.py lines 26-27); tests override them per
instance, so they are parameters here. -/
structure ValidatorCfg where
  INTERPRETER : String
  VALIDATOR : String
  deriving DecidableEq, Repr

/-- The default configuration: INTERPRETER = "java" and the jar template
path containing the HTML_CHECKER placeholder. -/
def defaultCfg : ValidatorCfg :=
  { INTERPRETER := "java", VALIDATOR := "{HTML_CHECKER}/vnujar/vnu.jar" }

/-- ValidatorInterface.get_interpreter_part (validator.py lines 58-80):
interpreter name when non-empty, then compiled options when the dict is
truthy (non-empty), then the "-jar" flag when the interpreter is "java". -/
def get_interpreter_part (cfg : ValidatorCfg) (options : PyDict) : List String :=
  (if cfg.INTERPRETER ≠ "" then [cfg.INTERPRETER] else []) ++
  (if options.isEmpty then [] else compile_options options) ++
  (if cfg.INTERPRETER = "java" then ["-jar"] else [])

/-- The opening brace character of a format placeholder. -/
def openBraceChar : Char := Char.ofNat 123

/-- The closing brace character of a format placeholder. -/
def closeBraceChar : Char := Char.ofNat 125

/-- One pass of Python str.format over the template characters with a
single named field: outside a placeholder, characters pass through and
an opening brace starts collecting the field name; inside one, a
closing brace substitutes the value when the collected name matches. -/
def formatFieldAux (name value : List Char) :
    Option (List Char) → List Char → List Char
  | none, [] => []
  | none, c :: rest =>
      if c = openBraceChar then formatFieldAux name value (some []) rest
      else c :: formatFieldAux name value none rest
  | some _, [] => []
  | some acc, d :: rest =>
      if d = closeBraceChar then
        (if acc = name then value else []) ++
          formatFieldAux name value none rest
      else formatFieldAux name value (some (acc ++ [d])) rest

/-- Python template.format with one named field, as used to substitute
the HTML_CHECKER placeholder of the VALIDATOR template (validator.py
lines 103-108). -/
def formatField (name value s : String) : String :=
  ⟨formatFieldAux name.data value.data none s.data⟩

/-- ValidatorInterface.get_validator_command (validator.py lines 82-115):
interpreter part, then the VALIDATOR path with the HTML_CHECKER
placeholder substituted by the application directory (omitted when the
template is empty), then compiled tool options when non-empty, then the
paths.  `appPath` models os.path.abspath(os.path.dirname(...)). -/
def get_validator_command (cfg : ValidatorCfg) (appPath : String)
    (paths : List String) (interpreter_options tool_options : PyDict) :
    List String :=
  get_interpreter_part cfg interpreter_options ++
  (if cfg.VALIDATOR ≠ "" then
    [formatField "HTML_CHECKER" appPath cfg.VALIDATOR] else []) ++
  (if tool_options.isEmpty then [] else compile_options tool_options) ++
  paths

/-- The error raised by the validator layer (html_checker.exceptions.
ValidatorError); it carries the formatted message. -/
structure ValidatorError where
  message : String
  deriving DecidableEq, Repr

/-- Outcome of one subprocess.check_output call on a command, with the
captured combined stdout/stderr payload of type `α` (bytes in Python,
kept abstract here): either the executable was not found
(FileNotFoundError, carrying the OS error text), or the process exited
with a code and its captured output. -/
inductive ProcResult (α : Type) where
  | notFound (oserr : String) : ProcResult α
  | exited (code : Nat) (output : α) : ProcResult α
  deriving DecidableEq

/-- ValidatorInterface.execute_validator (validator.py lines 117-136):
run the command; on FileNotFoundError raise a ValidatorError embedding
the OS cause; on CalledProcessError (non-zero exit) raise a
ValidatorError embedding the captured output decoded as text; otherwise
return the captured payload.  `run` models subprocess.check_output with
stderr merged into stdout, `decode` models output.decode("utf-8"). -/
def execute_validator {α : Type} (run : List String → ProcResult α)
    (decode : α → String) (command : List String) :
    Except ValidatorError α :=
  match run command with
  | .notFound e =>
      .error ⟨"Unable to reach interpreter to run validator: " ++ e⟩
  | .exited 0 out => .ok out
  | .exited (_ + 1) out =>
      .error ⟨"Validator execution failed: " ++ decode out⟩

/-- A Finding: one message object as a mapping of string keys to values,
kept as an association list of string fields (spec section 3, Finding).
The external tool emits each message with a "url" field locating it. -/
abbrev Finding := List (String × String)

/-- The environment a validate call runs in: the default user agent
constant, the application install directory, filesystem resolution and
the behaviour of the external process.  `run` models the composite of
subprocess execution and JSON decoding of the payload: the captured
output is represented post-decode as the list of message objects of the
messages array (spec section 6); `decode` models the text decoding of
the raw captured bytes, used only in error messages. -/
structure Env where
  USER_AGENT : String
  appPath : String
  abspath : String → String
  isFile : String → Bool
  run : List String → ProcResult (List Finding)
  decode : List Finding → String

/-- One conditional default assignment of manage_options: when the key
is not in the dict, assign the value (validator.py pattern of lines
161-171: `if k not in tool_options: tool_options[k] = v`). -/
def addDefault (d : PyDict) (k : String) (v : PyVal) : PyDict :=
  if !dictHasKey d k then dictSet d k v else d

/-- ValidatorInterface.manage_options (validator.py lines 138-173):
replace None dicts by empty ones, then assign defaults into the tool
options dict for each of "--format", "--exit-zero-always" and
"--user-agent" when the key is absent, in that order.  The assignments
mutate the caller-supplied dict in place in the source; state passing
models that mutation, so the returned dict is also the post-call state
of the caller's dict. -/
def manage_options (env : Env)
    (interpreter_options tool_options : Option PyDict) :
    PyDict × PyDict :=
  (interpreter_options.getD [],
    addDefault
      (addDefault
        (addDefault (tool_options.getD []) "--format" (.vStr "json"))
        "--exit-zero-always" .vNone)
      "--user-agent" (.vStr env.USER_AGENT))

/-- Modelled from the spec: html_checker.utils.reduce_unique is not under
src/.  Spec section 4.4 (Location Reducer): return the distinct
Locations keeping the first occurrence of each and discarding later
repeats, preserving first-seen order. -/
def reduce_unique_step (acc : List String) (x : String) : List String :=
  if x ∈ acc then acc else acc ++ [x]

/-- Modelled from the spec: the Location Reducer as one left fold of the
step above over the supplied Locations. -/
def reduce_unique (xs : List String) : List String :=
  xs.foldl reduce_unique_step []

/-- Python str.startswith over the character lists of the strings. -/
def strStartsWith (s pre : String) : Bool :=
  pre.data.isPrefixOf s.data

/-- A Location is a URL when it carries an http or https scheme (spec
section 3, Location). -/
def isUrl (p : String) : Bool :=
  strStartsWith p "http://" || strStartsWith p "https://"

/-- The synthetic Finding seeded for a missing local file (spec section
4.5; corroborated by test_build_initial_registry in
src/tests/020_validator.py). -/
def syntheticFinding : Finding :=
  [("type", "critical"), ("message", "File path does not exists.")]

/-- A Registry: ordered mapping from Location to None (clean) or an
ordered sequence of Findings (spec section 3, Registry). -/
abbrev Registry := List (String × Option (List Finding))

/-- Modelled from the spec: html_checker.reporter.ReportStore is not
under src/.  Spec section 4.5 (Registry Builder): seed each URL with
None; resolve a local path to absolute form, seed it with None when the
file exists (keyed by the resolved path) and with the synthetic Finding
when it does not (keyed as supplied).  Key shapes corroborated by
test_build_initial_registry in src/tests/020_validator.py. -/
def initial_registry (env : Env) (paths : List String) : Registry :=
  paths.map (fun p =>
    if isUrl p then (p, none)
    else if env.isFile (env.abspath p) then (env.abspath p, none)
    else (p, some [syntheticFinding]))

/-- The "url" field of a message, locating the Registry bucket it
belongs to (spec section 4.6). -/
def msgUrl (m : Finding) : Option String :=
  (m.find? (fun kv => kv.1 = "url")).map (fun kv => kv.2)

/-- A message with its "url" key stripped (spec section 4.6). -/
def stripUrl (m : Finding) : Finding :=
  m.filter (fun kv => kv.1 ≠ "url")

/-- Modelled from the spec: ReportStore message distribution is not
under src/.  Spec section 4.6 (Report Parser): a message whose url
matches a Registry key is appended, url stripped, to that bucket,
converting None to a one-element sequence on first append; a synthetic
entry already present is preserved, the message appended after it; a
message matching no key is silently dropped.  Corroborated by
test_parse_report in src/tests/020_validator.py. -/
def registry_add_message (reg : Registry) (m : Finding) : Registry :=
  match msgUrl m with
  | none => reg
  | some u =>
      reg.map (fun kv =>
        (kv.1,
          if kv.1 = u then some ((kv.2.getD []) ++ [stripUrl m])
          else kv.2))

/-- Modelled from the spec: ReportStore.add for one invocation payload,
distributing each message of the decoded messages array in order. -/
def registry_add (reg : Registry) (msgs : List Finding) : Registry :=
  msgs.foldl registry_add_message reg

/-- The split-mode loop of ValidatorInterface.validate (validator.py
lines 234-237): one validator execution per path, each merged into the
shared report; the second component logs every command handed to the
process runner, in order.  A failure stops the loop at once. -/
def splitLoop (env : Env) (cfg : ValidatorCfg)
    (interpreter_options tool_options : PyDict) (report : Registry) :
    List String → Except ValidatorError Registry × List (List String)
  | [] => (.ok report, [])
  | p :: rest =>
      let cmd := get_validator_command cfg env.appPath [p]
        interpreter_options tool_options
      match execute_validator env.run env.decode cmd with
      | .error e => (.error e, [cmd])
      | .ok content =>
          let r := splitLoop env cfg interpreter_options tool_options
            (registry_add report content) rest
          (r.1, cmd :: r.2)

/-- ValidatorInterface.validate (validator.py lines 197-239) with an
instrumented trace: manage options, reduce paths to unique ones, build
the initial report store, then run the validator once over all paths or
once per path, merging each payload; the result pairs the outcome with
the list of commands handed to the process runner. -/
def validateRuns (env : Env) (cfg : ValidatorCfg) (paths : List String)
    (interpreter_options tool_options : Option PyDict) (split : Bool) :
    Except ValidatorError Registry × List (List String) :=
  let opts := manage_options env interpreter_options tool_options
  let ps := reduce_unique paths
  let report := initial_registry env ps
  if split then
    splitLoop env cfg opts.1 opts.2 report ps
  else
    let cmd := get_validator_command cfg env.appPath ps opts.1 opts.2
    match execute_validator env.run env.decode cmd with
    | .error e => (.error e, [cmd])
    | .ok content => (.ok (registry_add report content), [cmd])

/-- ValidatorInterface.validate: the returned report (or propagated
error), dropping the instrumentation trace. -/
def validate (env : Env) (cfg : ValidatorCfg) (paths : List String)
    (interpreter_options tool_options : Option PyDict) (split : Bool) :
    Except ValidatorError Registry :=
  (validateRuns env cfg paths interpreter_options tool_options split).1

/-- The tokens a present option value expands to: a list into its
elements, any other present value as a single token. -/
def pyElems : PyVal → List String
  | .vNone => []
  | .vStr s => [s]
  | .vList xs => xs

/-- Option flattening as the claim words it (spec section 4.1): emit the
name when non-empty, then the value whenever it is present (not None),
a list expanded into consecutive tokens, any other present value as a
single token.  Stated for comparison with compile_options. -/
def compile_options_as_claimed (options : PyDict) : List String :=
  options.flatMap (fun nv =>
    (if nv.1 ≠ "" then [nv.1] else []) ++
    (match nv.2 with
     | .vNone => []
     | v => pyElems v))

/-- The tokens one option pair actually contributes in compile_options:
the name when non-empty, then the value only when truthy (a present but
empty string or empty list contributes nothing). -/
def pairTokens (nv : String × PyVal) : List String :=
  (if nv.1 ≠ "" then [nv.1] else []) ++
  (if pyTruthy nv.2 then pyElems nv.2 else [])

/-- The messages of one payload that land in bucket `k`: those whose url
field equals `k`, in payload order, each with the url key stripped. -/
def msgsFor (k : String) (msgs : List Finding) : List Finding :=
  (msgs.filter (fun m => msgUrl m = some k)).map stripUrl

/-- The default pairs manage_options appends to the caller-supplied tool
options dict: one pair per default key the caller did not supply, in the
order the source assigns them. -/
def appendedDefaults (env : Env) (t : PyDict) : PyDict :=
  (if dictHasKey t "--format" then [] else [("--format", PyVal.vStr "json")]) ++
  (if dictHasKey t "--exit-zero-always" then []
   else [("--exit-zero-always", PyVal.vNone)]) ++
  (if dictHasKey t "--user-agent" then []
   else [("--user-agent", PyVal.vStr env.USER_AGENT)])

/-- Python keyword-argument binding: a call raises TypeError when some
keyword argument does not name a declared parameter and the callee has
no var-keyword (double-star) parameter. -/
def pythonKwargBindingFails (params : List String) (hasVarKeyword : Bool)
    (kwargs : List String) : Bool :=
  !hasVarKeyword && kwargs.any (fun k => !params.contains k)

/-- Parameter names ValidatorInterface.__init__ declares besides self
(validator.py lines 29-30): none. -/
def validatorInterfaceInitParams : List String := []

/-- ValidatorInterface.__init__ declares no var-keyword parameter
(validator.py lines 29-30). -/
def validatorInterfaceInitHasVarKeyword : Bool := false

/-- Keyword arguments page_command passes when constructing the
validator (cli/page.py line 65): exception_class. -/
def pageCommandCtorKwargs : List String := ["exception_class"]

/-- The CLI arguments of page_command (cli/page.py line 28). -/
structure PageArgs where
  xss : Option String
  no_stream : Bool
  user_agent : Option String
  safe : Bool
  split : Bool
  paths : List String

/-- Outcome of one page_command invocation: a TypeError escaping the
command, or the report flow outcome. -/
inductive PageOutcome where
  | typeError : PageOutcome
  | report (result : Except ValidatorError Registry) : PageOutcome

/-- page_command (cli/page.py lines 28-88): build the option dicts from
the CLI arguments (lines 52-63), then construct the validator passing
the exception_class keyword argument (line 65) - a call that raises
TypeError when the constructor binding fails, before any validation is
attempted; only otherwise would validate run. -/
def page_command (env : Env) (cfg : ValidatorCfg) (a : PageArgs) :
    PageOutcome :=
  let tool_options : PyDict := []
  let tool_options := if a.no_stream then
    dictSet tool_options "--no-stream" .vNone else tool_options
  let tool_options := match a.user_agent with
    | some ua => dictSet tool_options "--user-agent" (.vStr ua)
    | none => tool_options
  let interpreter_options : PyDict := []
  let interpreter_options := match a.xss with
    | some x => dictSet interpreter_options ("-Xss" ++ x) .vNone
    | none => interpreter_options
  if pythonKwargBindingFails validatorInterfaceInitParams
      validatorInterfaceInitHasVarKeyword pageCommandCtorKwargs then
    .typeError
  else
    .report (validate env cfg a.paths (some interpreter_options)
      (some tool_options) a.split)

/-- A concrete environment where every local path exists: identity path
resolution and an external tool reporting no message. -/
def envT : Env :=
  { USER_AGENT := "UA", appPath := "/app", abspath := fun p => p,
    isFile := fun _ => true, run := fun _ => .exited 0 [],
    decode := fun _ => "" }

/-- A concrete environment where no local path exists: identity path
resolution and an external tool reporting no message. -/
def envF : Env :=
  { USER_AGENT := "UA", appPath := "/app", abspath := fun p => p,
    isFile := fun _ => false, run := fun _ => .exited 0 [],
    decode := fun _ => "" }

/-- A concrete environment whose interpreter cannot be reached: every
process start fails with a not-found OS error. -/
def envB : Env :=
  { USER_AGENT := "UA", appPath := "/app", abspath := fun p => p,
    isFile := fun _ => true, run := fun _ => .notFound "boom",
    decode := fun _ => "" }

theorem compile_options_step_eq (opts : List String) (n : String)
    (v : PyVal) :
    compile_options_step opts (n, v) = opts ++ pairTokens (n, v) := by
  cases v with
  | vNone =>
      by_cases hn : n = "" <;>
        simp [compile_options_step, pairTokens, pyTruthy, pyElems, hn]
  | vStr s =>
      by_cases hn : n = "" <;> by_cases hs : s = "" <;>
        simp [compile_options_step, pairTokens, pyTruthy, pyElems, hn, hs]
  | vList xs =>
      by_cases hn : n = "" <;> cases xs <;>
        simp [compile_options_step, pairTokens, pyTruthy, pyElems, hn]

theorem foldl_compile_step (d : PyDict) :
    ∀ acc : List String,
      d.foldl compile_options_step acc = acc ++ d.flatMap pairTokens := by
  induction d with
  | nil => intro acc; simp
  | cons nv rest ih =>
      intro acc
      obtain ⟨n, v⟩ := nv
      rw [List.foldl_cons, compile_options_step_eq, ih]
      simp [List.append_assoc]

/-- C4 (amended): compile_options returns the flat token list obtained
by visiting the (name, value) pairs in insertion order and, for each
pair, emitting the name token when non-empty, then the value only when
it is truthy: a list or tuple expanded into its elements as consecutive
tokens, a non-empty string as a single token; a present empty-string
value (like an absent value or an empty list) emits nothing. -/
theorem compile_options_flatten (options : PyDict) :
    compile_options options = options.flatMap pairTokens := by
  simpa [compile_options] using foldl_compile_step options []

/-- C4 counterexample: the claim as stated fails on a present
empty-string value: the code drops it from the token list while the
claim emits every present value as a token. -/
theorem compile_options_empty_value_dropped :
    compile_options [("--foo", PyVal.vStr "")] ≠
      compile_options_as_claimed [("--foo", PyVal.vStr "")] := by
  decide

/-- C5: the full command token sequence is the interpreter name (omitted
entirely when empty), the compiled interpreter options, the jar launch
flag when the interpreter is the java one (so interpreter options sit
between the interpreter name and the launch flag), the tool path with
its placeholder substituted (omitted entirely when the configured
template is empty), the compiled tool options, then the input Locations
in the exact order given. -/
theorem validator_command_shape (cfg : ValidatorCfg) (appPath : String)
    (interpreter_options tool_options : PyDict) (paths : List String) :
    get_validator_command cfg appPath paths interpreter_options
        tool_options =
      (if cfg.INTERPRETER = "" then [] else [cfg.INTERPRETER]) ++
      compile_options interpreter_options ++
      (if cfg.INTERPRETER = "java" then ["-jar"] else []) ++
      (if cfg.VALIDATOR = "" then []
       else [formatField "HTML_CHECKER" appPath cfg.VALIDATOR]) ++
      compile_options tool_options ++ paths := by
  have h1 : ∀ d : PyDict,
      (if d.isEmpty then ([] : List String) else compile_options d) =
        compile_options d := by
    intro d
    cases d <;> simp [compile_options]
  unfold get_validator_command get_interpreter_part
  rw [h1, h1]
  by_cases hi : cfg.INTERPRETER = "" <;>
    by_cases hv : cfg.VALIDATOR = "" <;>
      simp [hi, hv, List.append_assoc]

/-- C7: execute_validator raises a validator error in exactly two
failure cases: an unreachable interpreter raises the error embedding
the underlying not-found OS cause; a non-zero exit raises the error
embedding the captured combined output decoded as text; a zero exit
returns the raw captured payload without raising. -/
theorem execute_validator_classification
    (run : List String → ProcResult String) (command : List String) :
    (∀ e, run command = .notFound e →
      execute_validator run id command =
        .error ⟨"Unable to reach interpreter to run validator: " ++ e⟩) ∧
    (∀ out, run command = .exited 0 out →
      execute_validator run id command = .ok out) ∧
    (∀ n out, run command = .exited (n + 1) out →
      execute_validator run id command =
        .error ⟨"Validator execution failed: " ++ out⟩) := by
  refine ⟨?_, ?_, ?_⟩
  · intro e h
    unfold execute_validator
    rw [h]
  · intro out h
    unfold execute_validator
    rw [h]
  · intro n out h
    unfold execute_validator
    rw [h]
    simp

/-- Witness for C7: a concrete run whose interpreter executable is not
found yields the validator error embedding the OS cause. -/
theorem execute_validator_classification_check :
    execute_validator
        (fun _ => ProcResult.notFound "No such file or directory")
        id ["nietniet"] =
      .error ⟨"Unable to reach interpreter to run validator: No such file or directory"⟩ :=
  (execute_validator_classification
    (fun _ => ProcResult.notFound "No such file or directory")
    ["nietniet"]).1 "No such file or directory" rfl

/-- C9: for every invocation of the CLI page_command with any arguments,
constructing the validator raises a TypeError before any validation is
attempted, because page_command passes an exception_class keyword
argument while the validator constructor accepts no arguments besides
self. -/
theorem page_command_type_error (env : Env) (cfg : ValidatorCfg)
    (a : PageArgs) :
    page_command env cfg a = PageOutcome.typeError := rfl

theorem dictHasKey_append (d e : PyDict) (k : String) :
    dictHasKey (d ++ e) k = (dictHasKey d k || dictHasKey e k) := by
  simp [dictHasKey, List.any_append]

theorem lookup_append_left {d : PyDict} {k : String} {v : PyVal}
    (h : List.lookup k d = some v) (e : PyDict) :
    List.lookup k (d ++ e) = some v := by
  induction d with
  | nil => simp [List.lookup] at h
  | cons kv rest ih =>
      obtain ⟨k1, v1⟩ := kv
      rw [List.cons_append, List.lookup]
      rw [List.lookup] at h
      cases hbe : (k == k1) with
      | true => rw [hbe] at h; simpa [hbe] using h
      | false => rw [hbe] at h; simpa [hbe] using ih h

theorem lookup_append_right {d : PyDict} {k : String}
    (h : dictHasKey d k = false) (e : PyDict) :
    List.lookup k (d ++ e) = List.lookup k e := by
  induction d with
  | nil => simp
  | cons kv rest ih =>
      obtain ⟨k1, v1⟩ := kv
      simp only [dictHasKey, List.any_cons, Bool.or_eq_false_iff] at h
      rw [List.cons_append, List.lookup]
      have hbe : (k == k1) = false := by
        simp only [beq_eq_false_iff_ne, ne_eq]
        intro hk
        simp [hk] at h
      rw [hbe]
      exact ih (by simpa [dictHasKey] using h.2)

theorem addDefault_eq (d : PyDict) (k : String) (v : PyVal) :
    addDefault d k v = d ++ (if dictHasKey d k then [] else [(k, v)]) := by
  cases h : dictHasKey d k <;> simp [addDefault, dictSet, h]

theorem dictHasKey_addDefault_ne (d : PyDict) (k : String) (v : PyVal)
    (kk : String) (h : ¬ k = kk) :
    dictHasKey (addDefault d k v) kk = dictHasKey d kk := by
  rw [addDefault_eq, dictHasKey_append]
  cases hd : dictHasKey d k <;> simp [dictHasKey, h]

theorem hasKey_iff_lookup (d : PyDict) (k : String) :
    dictHasKey d k = (List.lookup k d).isSome := by
  induction d with
  | nil => rfl
  | cons kv rest ih =>
      obtain ⟨k1, v1⟩ := kv
      rw [List.lookup]
      cases hbe : (k == k1)
      · have hne : ¬ (k1 = k) := by
          intro hk
          rw [hk] at hbe
          simp at hbe
        simp [dictHasKey, List.any_cons, hne] at ih ⊢
        exact ih
      · have hk : k = k1 := by simpa using hbe
        simp [dictHasKey, List.any_cons, hk]

theorem manage_options_tool_eq (env : Env) (iopts topts : Option PyDict) :
    (manage_options env iopts topts).2 =
      topts.getD [] ++ appendedDefaults env (topts.getD []) := by
  have hfz : ¬ (("--format" : String) = "--exit-zero-always") := by decide
  have hfu : ¬ (("--format" : String) = "--user-agent") := by decide
  have hzu : ¬ (("--exit-zero-always" : String) = "--user-agent") := by decide
  show addDefault
      (addDefault
        (addDefault (topts.getD []) "--format" (.vStr "json"))
        "--exit-zero-always" .vNone)
      "--user-agent" (.vStr env.USER_AGENT) =
    topts.getD [] ++ appendedDefaults env (topts.getD [])
  rw [addDefault_eq,
    dictHasKey_addDefault_ne _ _ _ _ hzu,
    dictHasKey_addDefault_ne _ _ _ _ hfu,
    addDefault_eq,
    dictHasKey_addDefault_ne _ _ _ _ hfz,
    addDefault_eq]
  simp [appendedDefaults, List.append_assoc]

/-- C6: the option set actually used contains the JSON output-format
option, the always-succeed exit option and a default identification
string, each added only when the caller did not supply the key, and no
caller-supplied value for these keys is ever overwritten. -/
theorem manage_options_defaults (env : Env) (iopts topts : Option PyDict) :
    dictHasKey (manage_options env iopts topts).2 "--format" = true ∧
    dictHasKey (manage_options env iopts topts).2 "--exit-zero-always" = true ∧
    dictHasKey (manage_options env iopts topts).2 "--user-agent" = true ∧
    (∀ k v, List.lookup k (topts.getD []) = some v →
      List.lookup k (manage_options env iopts topts).2 = some v) ∧
    (dictHasKey (topts.getD []) "--format" = false →
      List.lookup "--format" (manage_options env iopts topts).2 =
        some (PyVal.vStr "json")) ∧
    (dictHasKey (topts.getD []) "--exit-zero-always" = false →
      List.lookup "--exit-zero-always" (manage_options env iopts topts).2 =
        some PyVal.vNone) ∧
    (dictHasKey (topts.getD []) "--user-agent" = false →
      List.lookup "--user-agent" (manage_options env iopts topts).2 =
        some (PyVal.vStr env.USER_AGENT)) := by
  have e1 : (("--format" : String) == "--format") = true := by decide
  have e2 : (("--exit-zero-always" : String) == "--format") = false := by decide
  have e3 : (("--exit-zero-always" : String) == "--exit-zero-always") = true := by decide
  have e4 : (("--user-agent" : String) == "--format") = false := by decide
  have e5 : (("--user-agent" : String) == "--exit-zero-always") = false := by decide
  have e6 : (("--user-agent" : String) == "--user-agent") = true := by decide
  have hfz : ¬ (("--format" : String) = "--exit-zero-always") := by decide
  have hfu : ¬ (("--format" : String) = "--user-agent") := by decide
  have hzu : ¬ (("--exit-zero-always" : String) = "--user-agent") := by decide
  have hnov : ∀ k v, List.lookup k (topts.getD []) = some v →
      List.lookup k (manage_options env iopts topts).2 = some v := by
    intro k v h
    rw [manage_options_tool_eq]
    exact lookup_append_left h _
  have hdf : dictHasKey (topts.getD []) "--format" = false →
      List.lookup "--format" (manage_options env iopts topts).2 =
        some (PyVal.vStr "json") := by
    intro hf
    rw [manage_options_tool_eq, lookup_append_right hf]
    cases hz2 : dictHasKey (topts.getD []) "--exit-zero-always" <;>
      cases hu2 : dictHasKey (topts.getD []) "--user-agent" <;>
        simp [appendedDefaults, hf, hz2, hu2, List.lookup, e1]
  have hdz : dictHasKey (topts.getD []) "--exit-zero-always" = false →
      List.lookup "--exit-zero-always" (manage_options env iopts topts).2 =
        some PyVal.vNone := by
    intro hz
    rw [manage_options_tool_eq, lookup_append_right hz]
    cases hf2 : dictHasKey (topts.getD []) "--format" <;>
      cases hu2 : dictHasKey (topts.getD []) "--user-agent" <;>
        simp [appendedDefaults, hf2, hz, hu2, List.lookup, e2, e3]
  have hdu : dictHasKey (topts.getD []) "--user-agent" = false →
      List.lookup "--user-agent" (manage_options env iopts topts).2 =
        some (PyVal.vStr env.USER_AGENT) := by
    intro hu
    rw [manage_options_tool_eq, lookup_append_right hu]
    cases hf2 : dictHasKey (topts.getD []) "--format" <;>
      cases hz2 : dictHasKey (topts.getD []) "--exit-zero-always" <;>
        simp [appendedDefaults, hf2, hz2, hu, List.lookup, e4, e5, e6]
  have hkey : ∀ k : String,
      (dictHasKey (topts.getD []) k = false →
        (List.lookup k (manage_options env iopts topts).2).isSome = true) →
      dictHasKey (manage_options env iopts topts).2 k = true := by
    intro k hdefault
    rw [hasKey_iff_lookup]
    cases hk : dictHasKey (topts.getD []) k
    · exact hdefault hk
    · rw [hasKey_iff_lookup] at hk
      obtain ⟨v, hv⟩ := Option.isSome_iff_exists.mp hk
      rw [hnov k v hv]
      rfl
  refine ⟨?_, ?_, ?_, hnov, hdf, hdz, hdu⟩
  · exact hkey "--format" (fun h => by rw [hdf h]; rfl)
  · exact hkey "--exit-zero-always" (fun h => by rw [hdz h]; rfl)
  · exact hkey "--user-agent" (fun h => by rw [hdu h]; rfl)

/-- Witness for C6: with a caller-supplied user-agent, the used option
set keeps the caller value for that key and still receives the JSON
format default. -/
theorem manage_options_defaults_check :
    List.lookup "--user-agent"
        (manage_options envT none
          (some [("--user-agent", PyVal.vStr "custom")])).2 =
      some (PyVal.vStr "custom") ∧
    List.lookup "--format"
        (manage_options envT none
          (some [("--user-agent", PyVal.vStr "custom")])).2 =
      some (PyVal.vStr "json") := by
  obtain ⟨-, -, -, hnov, hdf, -, -⟩ :=
    manage_options_defaults envT none
      (some [("--user-agent", PyVal.vStr "custom")])
  exact ⟨hnov "--user-agent" (PyVal.vStr "custom") (by decide),
    hdf (by decide)⟩

/-- C10: for a caller-supplied tool-option mapping, the dict the call
leaves in the caller's hands is the input mapping extended in place with
the default pairs for the keys the caller did not supply; when some
default key was absent the mapping is not left unchanged.  The in-place
mutation of the Python dict (validator.py lines 161-171 assign into the
caller object without copying) is modelled by state passing, so the
returned dict is also the post-call state of the caller's own dict. -/
theorem manage_options_mutates_caller (env : Env) (iopts : Option PyDict)
    (t : PyDict) :
    (manage_options env iopts (some t)).2 = t ++ appendedDefaults env t ∧
    (appendedDefaults env t ≠ [] →
      (manage_options env iopts (some t)).2 ≠ t) := by
  constructor
  · simpa using manage_options_tool_eq env iopts (some t)
  · intro had heq
    rw [manage_options_tool_eq] at heq
    simp only [Option.getD_some] at heq
    have hlen := congrArg List.length heq
    simp only [List.length_append] at hlen
    have : (appendedDefaults env t).length = 0 := by omega
    exact had (List.length_eq_zero.mp this)

/-- Witness for C10: with an empty caller dict, the post-call dict is
the appended defaults and differs from the input. -/
theorem manage_options_mutates_caller_check :
    (manage_options envT none (some [])).2 =
      [] ++ appendedDefaults envT [] ∧
    (manage_options envT none (some [])).2 ≠ [] := by
  obtain ⟨h1, h2⟩ := manage_options_mutates_caller envT none []
  exact ⟨h1, h2 (by decide)⟩

theorem mem_reduce_unique_step (acc : List String) (x y : String) :
    y ∈ reduce_unique_step acc x ↔ (y ∈ acc ∨ y = x) := by
  unfold reduce_unique_step
  by_cases hx : x ∈ acc
  · rw [if_pos hx]
    constructor
    · exact Or.inl
    · rintro (h | rfl)
      · exact h
      · exact hx
  · rw [if_neg hx]
    simp [List.mem_append]

theorem mem_foldl_reduce (xs : List String) :
    ∀ (acc : List String) (y : String),
      y ∈ xs.foldl reduce_unique_step acc ↔ y ∈ acc ∨ y ∈ xs := by
  induction xs with
  | nil => intro acc y; simp
  | cons x rest ih =>
      intro acc y
      rw [List.foldl_cons, ih, mem_reduce_unique_step]
      simp [List.mem_cons, or_assoc]

theorem mem_reduce_unique (xs : List String) (y : String) :
    y ∈ reduce_unique xs ↔ y ∈ xs := by
  unfold reduce_unique
  rw [mem_foldl_reduce]
  simp

theorem nodup_foldl_reduce (xs : List String) :
    ∀ acc : List String,
      acc.Nodup → (xs.foldl reduce_unique_step acc).Nodup := by
  induction xs with
  | nil => intro acc h; simpa using h
  | cons x rest ih =>
      intro acc h
      rw [List.foldl_cons]
      apply ih
      unfold reduce_unique_step
      by_cases hx : x ∈ acc
      · rw [if_pos hx]; exact h
      · rw [if_neg hx]
        simp [List.nodup_append, h, hx]

theorem reduce_unique_nodup (xs : List String) : (reduce_unique xs).Nodup :=
  nodup_foldl_reduce xs [] List.nodup_nil

theorem foldl_reduce_append (xs : List String) :
    ∀ acc : List String,
      ∃ ys, xs.foldl reduce_unique_step acc = acc ++ ys ∧ ys.Sublist xs := by
  induction xs with
  | nil => intro acc; exact ⟨[], by simp, List.nil_sublist _⟩
  | cons x rest ih =>
      intro acc
      rw [List.foldl_cons]
      by_cases hx : x ∈ acc
      · have hs : reduce_unique_step acc x = acc := by
          unfold reduce_unique_step
          rw [if_pos hx]
        rw [hs]
        obtain ⟨ys, h1, h2⟩ := ih acc
        exact ⟨ys, h1, h2.cons x⟩
      · have hs : reduce_unique_step acc x = acc ++ [x] := by
          unfold reduce_unique_step
          rw [if_neg hx]
        rw [hs]
        obtain ⟨ys, h1, h2⟩ := ih (acc ++ [x])
        refine ⟨x :: ys, ?_, h2.cons₂ x⟩
        rw [h1, List.append_assoc]
        rfl

theorem reduce_unique_sublist (xs : List String) :
    (reduce_unique xs).Sublist xs := by
  obtain ⟨ys, h1, h2⟩ := foldl_reduce_append xs []
  unfold reduce_unique
  rw [h1]
  simpa using h2

theorem lookup_map_keyed
    (h : String → Option (List Finding) → Option (List Finding))
    (reg : Registry) (k : String) :
    List.lookup k (reg.map (fun kv => (kv.1, h kv.1 kv.2))) =
      (List.lookup k reg).map (h k) := by
  induction reg with
  | nil => rfl
  | cons kv rest ih =>
      obtain ⟨k1, v1⟩ := kv
      rw [List.map_cons, List.lookup, List.lookup]
      cases hbe : (k == k1)
      · simpa using ih
      · have hk : k = k1 := by simpa using hbe
        subst hk
        simp

theorem map_keys_preserved
    (f : (String × Option (List Finding)) → String × Option (List Finding))
    (hf : ∀ kv, (f kv).1 = kv.1) (reg : Registry) :
    (reg.map f).map Prod.fst = reg.map Prod.fst := by
  induction reg with
  | nil => rfl
  | cons kv rest ih =>
      rw [List.map_cons, List.map_cons, List.map_cons, hf, ih]

theorem registry_add_message_keys (reg : Registry) (m : Finding) :
    (registry_add_message reg m).map Prod.fst = reg.map Prod.fst := by
  unfold registry_add_message
  cases msgUrl m
  · rfl
  · rename_i u
    exact map_keys_preserved
      (fun kv =>
        (kv.1,
          if kv.1 = u then some ((kv.2.getD []) ++ [stripUrl m])
          else kv.2))
      (fun kv => rfl) reg

theorem registry_add_keys (reg : Registry) (msgs : List Finding) :
    (registry_add reg msgs).map Prod.fst = reg.map Prod.fst := by
  induction msgs generalizing reg with
  | nil => rfl
  | cons m rest ih =>
      unfold registry_add
      rw [List.foldl_cons]
      exact (ih (registry_add_message reg m)).trans
        (registry_add_message_keys reg m)

theorem msgsFor_cons (k : String) (m : Finding) (rest : List Finding) :
    msgsFor k (m :: rest) = msgsFor k [m] ++ msgsFor k rest := by
  unfold msgsFor
  rw [List.filter_cons]
  by_cases h : msgUrl m = some k <;> simp [h]

theorem lookup_registry_add_message (reg : Registry) (m : Finding)
    (k : String) (l : List Finding)
    (h : List.lookup k reg = some (some l)) :
    List.lookup k (registry_add_message reg m) =
      some (some (l ++ msgsFor k [m])) := by
  unfold registry_add_message
  cases hmu : msgUrl m
  · simp [msgsFor, hmu, h]
  · rename_i u
    rw [lookup_map_keyed
      (fun kk v => if kk = u then some ((v.getD []) ++ [stripUrl m]) else v)
      reg k, h]
    by_cases hk : k = u
    · simp [hk, msgsFor, hmu]
    · have : ¬ (some u = some k) := by
        intro hc
        exact hk (Option.some.inj hc).symm
      simp [hk, msgsFor, hmu, this]

theorem lookup_registry_add (msgs : List Finding) (reg : Registry)
    (k : String) (l : List Finding)
    (h : List.lookup k reg = some (some l)) :
    List.lookup k (registry_add reg msgs) =
      some (some (l ++ msgsFor k msgs)) := by
  induction msgs generalizing reg l with
  | nil => simpa [registry_add, msgsFor] using h
  | cons m rest ih =>
      have h1 := lookup_registry_add_message reg m k l h
      have h2 := ih (registry_add_message reg m) (l ++ msgsFor k [m]) h1
      unfold registry_add at h2 ⊢
      rw [List.foldl_cons]
      rw [msgsFor_cons, ← List.append_assoc]
      exact h2

theorem msgsFor_no_syn {msgs : List Finding}
    (h : ∀ m ∈ msgs, stripUrl m ≠ syntheticFinding) (k : String) :
    syntheticFinding ∉ msgsFor k msgs := by
  unfold msgsFor
  intro hmem
  obtain ⟨m, hm, hstrip⟩ := List.mem_map.mp hmem
  exact h m (List.mem_of_mem_filter hm) hstrip

theorem initial_registry_keys (env : Env) (ps : List String)
    (hnorm : ∀ q ∈ ps, env.abspath q = q) :
    (initial_registry env ps).map Prod.fst = ps := by
  induction ps with
  | nil => rfl
  | cons p rest ih =>
      unfold initial_registry at ih ⊢
      rw [List.map_cons, List.map_cons]
      congr 1
      · have ha : env.abspath p = p := hnorm p (List.mem_cons_self p rest)
        by_cases hu : isUrl p = true
        · simp [hu]
        · cases hfi : env.isFile (env.abspath p) <;> simp [hu, hfi, ha]
      · exact ih (fun q hq => hnorm q (List.mem_cons_of_mem p hq))

theorem initial_registry_lookup_missing (env : Env) (ps : List String)
    (p : String)
    (hnorm : ∀ q ∈ ps, env.abspath q = q)
    (hp : p ∈ ps) (hurl : isUrl p = false)
    (hmiss : env.isFile (env.abspath p) = false) :
    List.lookup p (initial_registry env ps) =
      some (some [syntheticFinding]) := by
  induction ps with
  | nil => cases hp
  | cons q rest ih =>
      unfold initial_registry at ih ⊢
      rw [List.map_cons]
      by_cases hpq : p = q
      · subst hpq
        have ha : env.abspath p = p := hnorm p (List.mem_cons_self p rest)
        rw [if_neg (by simp [hurl]), ha, if_neg (by simp [ha ▸ hmiss])]
        simp [List.lookup]
      · have ha : env.abspath q = q := hnorm q (List.mem_cons_self q rest)
        have hbe : (p == q) = false := by simp [hpq]
        have hp2 : p ∈ rest := by
          rcases List.mem_cons.mp hp with h | h
          · exact absurd h hpq
          · exact h
        have htail := ih (fun r hr => hnorm r (List.mem_cons_of_mem q hr)) hp2
        by_cases hu : isUrl q = true
        · rw [if_pos hu, List.lookup, hbe]
          exact htail
        · cases hfi : env.isFile (env.abspath q)
          · rw [if_neg hu, if_neg (by simp [hfi]), List.lookup, hbe]
            exact htail
          · rw [if_neg hu, if_pos rfl, ha, List.lookup, hbe]
            exact htail

theorem exec_ok_of_run {α : Type} (run : List String → ProcResult α)
    (decode : α → String) (c : List String) (out : α)
    (h : run c = .exited 0 out) :
    execute_validator run decode c = .ok out := by
  unfold execute_validator
  rw [h]

theorem exec_ok_run {α : Type} {run : List String → ProcResult α}
    {decode : α → String} {c : List String} {out : α}
    (h : execute_validator run decode c = .ok out) :
    run c = .exited 0 out := by
  unfold execute_validator at h
  cases hr : run c
  · rw [hr] at h
    cases h
  · rename_i code out1
    cases code
    · rw [hr] at h
      rw [Except.ok.inj h]
    · rw [hr] at h
      cases h

theorem splitLoop_all_ok (env : Env) (cfg : ValidatorCfg)
    (io topt : PyDict) (m : String → List Finding) :
    ∀ (l : List String) (R : Registry),
      (∀ p ∈ l, execute_validator env.run env.decode
        (get_validator_command cfg env.appPath [p] io topt) = .ok (m p)) →
      splitLoop env cfg io topt R l =
        (.ok (l.foldl (fun acc p => registry_add acc (m p)) R),
          l.map (fun p => get_validator_command cfg env.appPath [p] io topt)) := by
  intro l
  induction l with
  | nil => intro R _; rfl
  | cons p rest ih =>
      intro R h
      have hrec := ih (registry_add R (m p))
        (fun q hq => h q (List.mem_cons_of_mem p hq))
      rw [splitLoop, h p (List.mem_cons_self p rest), List.foldl_cons,
        List.map_cons]
      show ((splitLoop env cfg io topt (registry_add R (m p)) rest).1,
        get_validator_command cfg env.appPath [p] io topt ::
          (splitLoop env cfg io topt (registry_add R (m p)) rest).2) = _
      rw [hrec]

theorem splitLoop_ok_trace (env : Env) (cfg : ValidatorCfg)
    (io topt : PyDict) :
    ∀ (l : List String) (R : Registry) (r : Registry),
      (splitLoop env cfg io topt R l).1 = .ok r →
      (splitLoop env cfg io topt R l).2 =
        l.map (fun p => get_validator_command cfg env.appPath [p] io topt) := by
  intro l
  induction l with
  | nil => intro R r _; rfl
  | cons p rest ih =>
      intro R r hr
      rw [splitLoop] at hr ⊢
      cases hex : execute_validator env.run env.decode
          (get_validator_command cfg env.appPath [p] io topt)
      · rw [hex] at hr
        cases hr
      · rename_i content
        rw [hex] at hr
        rw [List.map_cons]
        exact congrArg (List.cons _) (ih (registry_add R content) r hr)

theorem splitLoop_ok_keys (env : Env) (cfg : ValidatorCfg)
    (io topt : PyDict) :
    ∀ (l : List String) (R : Registry) (r : Registry),
      (splitLoop env cfg io topt R l).1 = .ok r →
      r.map Prod.fst = R.map Prod.fst := by
  intro l
  induction l with
  | nil =>
      intro R r hr
      rw [Except.ok.inj hr]
  | cons p rest ih =>
      intro R r hr
      rw [splitLoop] at hr
      cases hex : execute_validator env.run env.decode
          (get_validator_command cfg env.appPath [p] io topt)
      · rw [hex] at hr
        cases hr
      · rename_i content
        rw [hex] at hr
        exact (ih (registry_add R content) r hr).trans
          (registry_add_keys R content)

theorem splitLoop_preserves_entry (env : Env) (cfg : ValidatorCfg)
    (io topt : PyDict) (p : String)
    (hclean : ∀ c msgs, env.run c = .exited 0 msgs →
      ∀ m2 ∈ msgs, stripUrl m2 ≠ syntheticFinding) :
    ∀ (l : List String) (R : Registry) (s : List Finding) (r : Registry),
      (splitLoop env cfg io topt R l).1 = .ok r →
      List.lookup p R = some (some (syntheticFinding :: s)) →
      syntheticFinding ∉ s →
      ∃ s2, List.lookup p r = some (some (syntheticFinding :: s2)) ∧
        syntheticFinding ∉ s2 := by
  intro l
  induction l with
  | nil =>
      intro R s r hr hl hs
      rw [← Except.ok.inj hr]
      exact ⟨s, hl, hs⟩
  | cons q rest ih =>
      intro R s r hr hl hs
      rw [splitLoop] at hr
      cases hex : execute_validator env.run env.decode
          (get_validator_command cfg env.appPath [q] io topt)
      · rw [hex] at hr
        cases hr
      · rename_i content
        rw [hex] at hr
        have hrun := exec_ok_run hex
        have hl2 := lookup_registry_add content R p (syntheticFinding :: s) hl
        rw [List.cons_append] at hl2
        refine ih (registry_add R content) (s ++ msgsFor p content) r hr hl2 ?_
        intro hmem
        rcases List.mem_append.mp hmem with h1 | h1
        · exact hs h1
        · exact msgsFor_no_syn (hclean _ _ hrun) p h1

theorem splitLoop_error (env : Env) (cfg : ValidatorCfg)
    (io topt : PyDict) (p : String) (e : ValidatorError) (post : List String) :
    ∀ (pre : List String) (R : Registry),
      (∀ q ∈ pre, ∃ msgs, execute_validator env.run env.decode
        (get_validator_command cfg env.appPath [q] io topt) = .ok msgs) →
      execute_validator env.run env.decode
        (get_validator_command cfg env.appPath [p] io topt) = .error e →
      splitLoop env cfg io topt R (pre ++ p :: post) =
        (.error e,
          pre.map (fun q => get_validator_command cfg env.appPath [q] io topt) ++
            [get_validator_command cfg env.appPath [p] io topt]) := by
  intro pre
  induction pre with
  | nil =>
      intro R _ hp
      rw [List.nil_append, splitLoop, hp]
      rfl
  | cons q rest ih =>
      intro R hpre hp
      obtain ⟨msgs, hq⟩ := hpre q (List.mem_cons_self q rest)
      have hrec := ih (registry_add R msgs)
        (fun q2 hq2 => hpre q2 (List.mem_cons_of_mem q hq2)) hp
      simp only [List.cons_append, List.map_cons]
      rw [splitLoop, hq]
      show ((splitLoop env cfg io topt (registry_add R msgs)
          (rest ++ p :: post)).1,
        get_validator_command cfg env.appPath [q] io topt ::
          (splitLoop env cfg io topt (registry_add R msgs)
            (rest ++ p :: post)).2) = _
      rw [hrec]

theorem registry_add_append (reg : Registry) (xs ys : List Finding) :
    registry_add reg (xs ++ ys) = registry_add (registry_add reg xs) ys := by
  unfold registry_add
  rw [List.foldl_append]

theorem foldl_add_flatMap (m : String → List Finding) :
    ∀ (l : List String) (R : Registry),
      l.foldl (fun acc p => registry_add acc (m p)) R =
        registry_add R (l.flatMap m) := by
  intro l
  induction l with
  | nil => intro R; rfl
  | cons p rest ih =>
      intro R
      rw [List.foldl_cons, List.flatMap_cons, registry_add_append, ih]

theorem mem_validator_command (cfg : ValidatorCfg) (appPath : String)
    (paths : List String) (io topt : PyDict) (p : String)
    (hp : p ∈ paths) :
    p ∈ get_validator_command cfg appPath paths io topt := by
  unfold get_validator_command
  simp [List.mem_append, hp]

theorem validateRuns_batch (env : Env) (cfg : ValidatorCfg)
    (paths : List String) (iopts topts : Option PyDict) :
    validateRuns env cfg paths iopts topts false =
      match execute_validator env.run env.decode
          (get_validator_command cfg env.appPath (reduce_unique paths)
            (manage_options env iopts topts).1
            (manage_options env iopts topts).2) with
      | .error e =>
          (.error e,
            [get_validator_command cfg env.appPath (reduce_unique paths)
              (manage_options env iopts topts).1
              (manage_options env iopts topts).2])
      | .ok content =>
          (.ok (registry_add
              (initial_registry env (reduce_unique paths)) content),
            [get_validator_command cfg env.appPath (reduce_unique paths)
              (manage_options env iopts topts).1
              (manage_options env iopts topts).2]) := rfl

theorem validateRuns_split (env : Env) (cfg : ValidatorCfg)
    (paths : List String) (iopts topts : Option PyDict) :
    validateRuns env cfg paths iopts topts true =
      splitLoop env cfg (manage_options env iopts topts).1
        (manage_options env iopts topts).2
        (initial_registry env (reduce_unique paths))
        (reduce_unique paths) := rfl

/-- C1: for every input list of Locations (already in normalized form,
as the spec treats Locations as opaque once normalized) and both values
of the split flag, a Registry returned by validate has keys exactly the
deduplicated input in first-seen order, a subsequence of the supplied
order, and every supplied Location occurs exactly once as a key. -/
theorem registry_keys_complete (env : Env) (cfg : ValidatorCfg)
    (paths : List String) (iopts topts : Option PyDict) (split : Bool)
    (reg : Registry)
    (hnorm : ∀ p ∈ paths, env.abspath p = p)
    (hok : validate env cfg paths iopts topts split = .ok reg) :
    reg.map Prod.fst = reduce_unique paths ∧
    (reg.map Prod.fst).Sublist paths ∧
    ∀ p ∈ paths, (reg.map Prod.fst).count p = 1 := by
  have hnorm2 : ∀ p ∈ reduce_unique paths, env.abspath p = p :=
    fun p hp => hnorm p ((mem_reduce_unique paths p).mp hp)
  have hkeys : reg.map Prod.fst = reduce_unique paths := by
    unfold validate at hok
    cases split
    · rw [validateRuns_batch] at hok
      cases hex : execute_validator env.run env.decode
          (get_validator_command cfg env.appPath (reduce_unique paths)
            (manage_options env iopts topts).1
            (manage_options env iopts topts).2)
      · rw [hex] at hok
        simp at hok
      · rw [hex] at hok
        simp only [] at hok
        rw [← Except.ok.inj hok, registry_add_keys,
          initial_registry_keys env _ hnorm2]
    · rw [validateRuns_split] at hok
      rw [splitLoop_ok_keys env cfg _ _ (reduce_unique paths) _ reg hok,
        initial_registry_keys env _ hnorm2]
  refine ⟨hkeys, ?_, ?_⟩
  · rw [hkeys]
    exact reduce_unique_sublist paths
  · intro p hp
    rw [hkeys]
    exact List.count_eq_one_of_mem (reduce_unique_nodup paths)
      ((mem_reduce_unique paths p).mpr hp)

/-- Witness for C1 on a concrete run with a duplicate Location and a
URL, in batched mode. -/
theorem registry_keys_complete_check :
    ([("a.html", (none : Option (List Finding))),
        ("http://x", none)].map Prod.fst =
      reduce_unique ["a.html", "a.html", "http://x"]) ∧
    ([("a.html", (none : Option (List Finding))),
        ("http://x", none)].map Prod.fst).Sublist
      ["a.html", "a.html", "http://x"] ∧
    ∀ p ∈ ["a.html", "a.html", "http://x"],
      ([("a.html", (none : Option (List Finding))),
          ("http://x", none)].map Prod.fst).count p = 1 :=
  registry_keys_complete envT defaultCfg ["a.html", "a.html", "http://x"]
    none none false [("a.html", none), ("http://x", none)]
    (fun p _ => rfl) rfl

/-- C2: for a fixed Location list with no missing local files, when the
external tool produces the same per-Location messages in both modes,
validate with split true and with split false return the same Registry. -/
theorem split_batch_equivalence (env : Env) (cfg : ValidatorCfg)
    (paths : List String) (iopts topts : Option PyDict)
    (m : String → List Finding)
    (hnomiss : ∀ p ∈ paths, isUrl p = false →
      env.isFile (env.abspath p) = true)
    (hbatch : env.run (get_validator_command cfg env.appPath
        (reduce_unique paths) (manage_options env iopts topts).1
        (manage_options env iopts topts).2) =
      .exited 0 ((reduce_unique paths).flatMap m))
    (hsplit : ∀ p ∈ reduce_unique paths,
      env.run (get_validator_command cfg env.appPath [p]
        (manage_options env iopts topts).1
        (manage_options env iopts topts).2) = .exited 0 (m p)) :
    validate env cfg paths iopts topts true =
      validate env cfg paths iopts topts false := by
  unfold validate
  rw [validateRuns_batch, validateRuns_split,
    splitLoop_all_ok env cfg _ _ m (reduce_unique paths)
      (initial_registry env (reduce_unique paths))
      (fun p hp => exec_ok_of_run _ _ _ _ (hsplit p hp)),
    exec_ok_of_run _ _ _ _ hbatch, foldl_add_flatMap]

/-- Witness for C2 on a concrete two-Location run where the external
tool reports nothing for each Location. -/
theorem split_batch_equivalence_check :
    validate envT defaultCfg ["a.html", "b.html"] none none true =
      validate envT defaultCfg ["a.html", "b.html"] none none false :=
  split_batch_equivalence envT defaultCfg ["a.html", "b.html"] none none
    (fun _ => []) (fun p _ _ => rfl) rfl (fun p _ => rfl)

/-- C3 (amended): a local path Location that does not resolve to an
existing file gets a final Registry entry that starts with the synthetic
critical Finding and contains it exactly once (provided the external
tool does not itself emit that exact finding); contrary to the original
claim, the Location IS included in the argument list of an external-tool
invocation issued by validate: the single batched command, or its own
command in split mode. -/
theorem missing_file_synthesis (env : Env) (cfg : ValidatorCfg)
    (paths : List String) (iopts topts : Option PyDict) (split : Bool)
    (p : String) (reg : Registry)
    (hnorm : ∀ q ∈ paths, env.abspath q = q)
    (hp : p ∈ paths) (hurl : isUrl p = false)
    (hmiss : env.isFile (env.abspath p) = false)
    (hclean : ∀ c msgs, env.run c = .exited 0 msgs →
      ∀ m2 ∈ msgs, stripUrl m2 ≠ syntheticFinding)
    (hok : validate env cfg paths iopts topts split = .ok reg) :
    (∃ rest, List.lookup p reg = some (some (syntheticFinding :: rest)) ∧
      syntheticFinding ∉ rest) ∧
    (∃ c ∈ (validateRuns env cfg paths iopts topts split).2, p ∈ c) := by
  have hpps : p ∈ reduce_unique paths := (mem_reduce_unique paths p).mpr hp
  have hnorm2 : ∀ q ∈ reduce_unique paths, env.abspath q = q :=
    fun q hq => hnorm q ((mem_reduce_unique paths q).mp hq)
  have h0 := initial_registry_lookup_missing env (reduce_unique paths) p
    hnorm2 hpps hurl hmiss
  unfold validate at hok
  cases split
  · rw [validateRuns_batch] at hok ⊢
    cases hex : execute_validator env.run env.decode
        (get_validator_command cfg env.appPath (reduce_unique paths)
          (manage_options env iopts topts).1
          (manage_options env iopts topts).2)
    · rw [hex] at hok
      simp at hok
    · rename_i content
      rw [hex] at hok
      simp only [] at hok
      have hrun := exec_ok_run hex
      constructor
      · refine ⟨msgsFor p content, ?_, ?_⟩
        · rw [← Except.ok.inj hok]
          have hl := lookup_registry_add content
            (initial_registry env (reduce_unique paths)) p
            [syntheticFinding] h0
          simpa using hl
        · exact msgsFor_no_syn (hclean _ _ hrun) p
      · exact ⟨get_validator_command cfg env.appPath (reduce_unique paths)
          (manage_options env iopts topts).1
          (manage_options env iopts topts).2,
          List.mem_singleton_self _, mem_validator_command _ _ _ _ _ p hpps⟩
  · rw [validateRuns_split] at hok ⊢
    constructor
    · exact splitLoop_preserves_entry env cfg _ _ p hclean
        (reduce_unique paths) (initial_registry env (reduce_unique paths))
        [] reg hok (by simpa using h0) (by simp)
    · have htr := splitLoop_ok_trace env cfg _ _ (reduce_unique paths)
        (initial_registry env (reduce_unique paths)) reg hok
      rw [htr]
      exact ⟨get_validator_command cfg env.appPath [p]
          (manage_options env iopts topts).1
          (manage_options env iopts topts).2,
        List.mem_map_of_mem _ hpps,
        mem_validator_command _ _ _ _ _ p (by simp)⟩

/-- Witness for C3 on a concrete missing local path in batched mode. -/
theorem missing_file_synthesis_check :
    (∃ rest, List.lookup "nope.html"
        [("nope.html", some [syntheticFinding])] =
        some (some (syntheticFinding :: rest)) ∧
      syntheticFinding ∉ rest) ∧
    (∃ c ∈ (validateRuns envF defaultCfg ["nope.html"] none none
        false).2, "nope.html" ∈ c) :=
  missing_file_synthesis envF defaultCfg ["nope.html"] none none false
    "nope.html" [("nope.html", some [syntheticFinding])]
    (fun q _ => rfl) (by simp) (by decide) rfl
    (by
      intro c msgs h m2 hm2
      injection h with h1 h2
      rw [← h2] at hm2
      cases hm2)
    rfl

/-- C3 counterexample: the claim as stated is false on the code: a
missing local path IS included in the argument list of the external-tool
invocation issued by validate (the source passes the full deduplicated
path list to the command builder without filtering missing paths). -/
theorem missing_file_sent_to_tool :
    envF.isFile (envF.abspath "nope.html") = false ∧
    isUrl "nope.html" = false ∧
    "nope.html" ∈
      (validateRuns envF defaultCfg ["nope.html"] none none
        false).2.flatten := by
  refine ⟨rfl, by decide, by decide⟩

/-- C8: a process failure propagates unchanged and aborts validate at
once: in batched mode the single command failure is returned as the
error with that one command issued; in split mode a failure at any
Location, after successful earlier ones, returns that error with no
later invocation issued and no Registry. -/
theorem validate_failure_propagation (env : Env) (cfg : ValidatorCfg)
    (paths : List String) (iopts topts : Option PyDict)
    (e : ValidatorError) :
    (execute_validator env.run env.decode
        (get_validator_command cfg env.appPath (reduce_unique paths)
          (manage_options env iopts topts).1
          (manage_options env iopts topts).2) = .error e →
      validateRuns env cfg paths iopts topts false =
        (.error e,
          [get_validator_command cfg env.appPath (reduce_unique paths)
            (manage_options env iopts topts).1
            (manage_options env iopts topts).2])) ∧
    (∀ pre p post, reduce_unique paths = pre ++ p :: post →
      (∀ q ∈ pre, ∃ msgs, execute_validator env.run env.decode
        (get_validator_command cfg env.appPath [q]
          (manage_options env iopts topts).1
          (manage_options env iopts topts).2) = .ok msgs) →
      execute_validator env.run env.decode
        (get_validator_command cfg env.appPath [p]
          (manage_options env iopts topts).1
          (manage_options env iopts topts).2) = .error e →
      validateRuns env cfg paths iopts topts true =
        (.error e,
          pre.map (fun q => get_validator_command cfg env.appPath [q]
            (manage_options env iopts topts).1
            (manage_options env iopts topts).2) ++
          [get_validator_command cfg env.appPath [p]
            (manage_options env iopts topts).1
            (manage_options env iopts topts).2])) := by
  constructor
  · intro hex
    rw [validateRuns_batch, hex]
  · intro pre p post hdecomp hpre hp
    rw [validateRuns_split, hdecomp]
    exact splitLoop_error env cfg _ _ p e post pre _ hpre hp

/-- Witness for C8 on a concrete unreachable interpreter in batched
mode: validate returns the propagated error after the single issued
command. -/
theorem validate_failure_propagation_check :
    validateRuns envB defaultCfg ["a.html"] none none false =
      (.error ⟨"Unable to reach interpreter to run validator: boom"⟩,
        [["java", "-jar", "/app/vnujar/vnu.jar", "--format", "json",
          "--exit-zero-always", "--user-agent", "UA", "a.html"]]) := by
  have h := (validate_failure_propagation envB defaultCfg ["a.html"]
    none none
    ⟨"Unable to reach interpreter to run validator: boom"⟩).1 rfl
  rw [h]
  rfl

end HtmlChecker
